import Mathlib

/-!
Verification of the chart windowing, scaling and cursor-navigation engine of
the `stock_tui` terminal dashboard (Rust sources `src/models.rs`, `src/app.rs`,
`src/ui.rs`, `src/main.rs`).

Modelling conventions:
* `f64` prices parsed from the provider strings are modelled as exact
  rationals (`ℚ`); the parsed numeric fields of `KLineData` and `StockQuote`
  appear directly (`low` stands for `low_f64()` etc.).  The float literal
  `0.05` in the margin computation is the exact rational `1/20`.
* `usize` arithmetic is on `ℕ`; the one place where wrap-around matters
  (`window - 1` in `calculate_ma` when `window == 0`) is modelled explicitly
  with `% 2^64` (`usizeSub1`); `saturating_sub` is ordinary truncated `ℕ`
  subtraction.
* the sentinel initialisation `f64::MAX` / `f64::MIN` of the axis-scaling
  accumulators is modelled by an `Option ℚ` accumulator (`none` = still at
  the sentinel), which has the same observable behaviour on real prices.
-/

/-- The `usize` modulus. -/
def USIZE : Nat := 2 ^ 64

/-- The value `w - 1` with `usize` wrap-around semantics (`0 - 1 = 2^64 - 1`).
For `1 ≤ w < 2^64` this is plain `w - 1`. -/
def usizeSub1 (w : Nat) : Nat := (w + USIZE - 1) % USIZE

theorem usizeSub1_of_pos {w : Nat} (h1 : 1 ≤ w) (h2 : w < USIZE) :
    usizeSub1 w = w - 1 := by
  unfold usizeSub1 USIZE at *
  omega

theorem usizeSub1_zero : usizeSub1 0 = USIZE - 1 := by
  unfold usizeSub1 USIZE
  norm_num

/-- One OHLCV bar, `models.rs` `KLineData`.  The Rust struct stores the five
numeric fields as provider strings and parses on demand (`open_f64()` …,
unparsable text defaulting to `0.0`); here the fields hold the parsed
rational values directly (`opn` because `open` is a Lean keyword). -/
structure KLineData where
  day : String
  opn : ℚ
  high : ℚ
  low : ℚ
  close : ℚ
  volume : ℚ
deriving DecidableEq, Repr

/-- A real-time quote, `models.rs` `StockQuote` (numeric fields as parsed). -/
structure StockQuote where
  name : String
  symbol : String
  opn : ℚ
  pre_close : ℚ
  current : ℚ
  high : ℚ
  low : ℚ
  volume : ℚ
  turnover : ℚ
  date : String
  time : String
deriving DecidableEq, Repr

/-- From `models.rs` `TimeFrame`. -/
inductive TimeFrame where
  | min5 | min15 | min30 | min60 | daily | weekly | monthly
deriving DecidableEq, Repr

/-- From `models.rs` `ViewMode`. -/
inductive ViewMode where
  | normal | fullscreenChart
deriving DecidableEq, Repr

/-- The lookup `data[j].close_f64()`, total (the Rust index is always in
bounds at its call sites; out of range we default to `0`). -/
def closeAt (data : List KLineData) (j : Nat) : ℚ :=
  ((data.get? j).map KLineData.close).getD 0

/-- The running-sum loop body of `calculate_ma` (`models.rs` lines 190-200),
structurally recursive on the not-yet-visited suffix of `data`; `i` is the
loop index and `sum` the running sum.
`i >= window` is `window ≤ i`; `i >= window - 1` is `usizeSub1 window ≤ i`
(the `usize` subtraction wraps for `window == 0`). -/
def maAux (data : List KLineData) (window : Nat) :
    List KLineData → Nat → ℚ → List (Option ℚ)
  | [], _, _ => []
  | k :: rest, i, sum =>
    let sum1 := sum + k.close
    let sum2 := if window ≤ i then sum1 - closeAt data (i - window) else sum1
    (if usizeSub1 window ≤ i then some (sum2 / (window : ℚ)) else none) ::
      maAux data window rest (i + 1) sum2

/-- From `models.rs` `calculate_ma(data, window)`. -/
def calculate_ma (data : List KLineData) (window : Nat) : List (Option ℚ) :=
  maAux data window data 0 0

/-- The closes of a bar series. -/
def closes (data : List KLineData) : List ℚ := data.map KLineData.close

/-- Sum of the closes with indices in `[i - w, i)` (the trailing window of
width at most `w` ending just before index `i`). -/
def winSum (cs : List ℚ) (w i : Nat) : ℚ := ((cs.take i).drop (i - w)).sum

/-- The slice of closes over bars `[i-w+1, i]` — the window the spec's
moving-average element `i` averages over. -/
def maWindow (data : List KLineData) (w i : Nat) : List ℚ :=
  ((closes data).take (i + 1)).drop (i + 1 - w)

/-- Element `i` of the spec's moving average: the arithmetic mean of the
closes over bars `[i-w+1, i]`. -/
def maMean (data : List KLineData) (w i : Nat) : ℚ :=
  (maWindow data w i).sum / (w : ℚ)

theorem closeAt_eq_getD (data : List KLineData) (j : Nat) :
    closeAt data j = (closes data).getD j 0 := by
  unfold closeAt closes
  rw [List.get?_eq_getElem?, List.getD_eq_getElem?_getD, List.getElem?_map]

theorem winSum_zero (cs : List ℚ) (w : Nat) : winSum cs w 0 = 0 := by
  simp [winSum]

theorem winSum_succ (cs : List ℚ) (w i : Nat) (hw : 1 ≤ w) (h : i < cs.length) :
    winSum cs w (i + 1) =
      winSum cs w i + cs.getD i 0 - (if w ≤ i then cs.getD (i - w) 0 else 0) := by
  unfold winSum
  have htake : (cs.take i).length = i := by
    rw [List.length_take]; omega
  have htakesucc : cs.take (i + 1) = cs.take i ++ [cs.getD i 0] := by
    rw [List.take_succ]
    congr 1
    rw [List.getElem?_eq_getElem h]
    simp [List.getD_eq_getElem?_getD, List.getElem?_eq_getElem h]
  by_cases hwi : w ≤ i
  · have h1 : i + 1 - w = (i - w) + 1 := by omega
    have h2 : i - w < (cs.take i).length := by omega
    have hgt : (cs.take i)[i - w] = cs.getD (i - w) 0 := by
      rw [List.getElem_take]
      simp [List.getD_eq_getElem?_getD, List.getElem?_eq_getElem (by omega : i - w < cs.length)]
    rw [htakesucc, h1, List.drop_append_of_le_length (by omega),
      List.drop_eq_getElem_cons h2] at *
    simp only [List.sum_append, List.sum_cons, List.sum_nil, hgt, if_pos hwi]
    ring
  · have h1 : i + 1 - w = 0 := by omega
    have h2 : i - w = 0 := by omega
    rw [h1, h2, htakesucc]
    simp only [List.drop_zero, List.sum_append, List.sum_cons, List.sum_nil, if_neg hwi]
    ring

theorem closes_getD (data : List KLineData) {i : Nat} (h : i < data.length) :
    (closes data).getD i 0 = (data[i]).close := by
  simp [closes, List.getD_eq_getElem?_getD, List.getElem?_map, List.getElem?_eq_getElem h]

theorem length_closes (data : List KLineData) : (closes data).length = data.length := by
  simp [closes]

/-- Invariant of the `calculate_ma` loop: entering iteration `i` with the
running sum equal to the trailing-window sum `winSum … i`, the rest of the
loop emits, for every remaining index `j`, `None` below `w - 1` and the
window mean at and above it. -/
theorem maAux_drop (data : List KLineData) (w : Nat) (hw : 1 ≤ w) (hw2 : w < USIZE) :
    ∀ n i, i ≤ data.length → data.length - i = n →
    maAux data w (data.drop i) i (winSum (closes data) w i) =
      (List.range' i n).map (fun j =>
        if w - 1 ≤ j then some (winSum (closes data) w (j + 1) / (w : ℚ)) else none) := by
  intro n
  induction n with
  | zero =>
    intro i hle hn
    have hd : data.drop i = [] := List.drop_eq_nil_of_le (by omega)
    simp [hd, maAux]
  | succ n ih =>
    intro i hle hn
    have hi : i < data.length := by omega
    have hdrop : data.drop i = data[i] :: data.drop (i + 1) := List.drop_eq_getElem_cons hi
    have hlen : i < (closes data).length := by rw [length_closes]; omega
    have hsum2 :
        (if w ≤ i then winSum (closes data) w i + (data[i]).close - closeAt data (i - w)
         else winSum (closes data) w i + (data[i]).close) =
        winSum (closes data) w (i + 1) := by
      rw [winSum_succ (closes data) w i hw hlen, closes_getD data hi, closeAt_eq_getD]
      by_cases hwi : w ≤ i
      · simp [hwi]
      · simp [hwi]
    rw [hdrop, List.range'_succ]
    simp only [maAux, List.map_cons]
    rw [hsum2, usizeSub1_of_pos hw hw2]
    exact congrArg _ (ih (i + 1) (by omega) (by omega))

/-- For `1 ≤ w` (and `w` a `usize`), `calculate_ma` computes, at every index
`i`, `None` for `i < w - 1` and the trailing-window mean for `i ≥ w - 1`. -/
theorem calculate_ma_eq (data : List KLineData) (w : Nat) (hw : 1 ≤ w) (hw2 : w < USIZE) :
    calculate_ma data w = (List.range data.length).map (fun j =>
      if w - 1 ≤ j then some (winSum (closes data) w (j + 1) / (w : ℚ)) else none) := by
  have h := maAux_drop data w hw hw2 data.length 0 (by omega) (by omega)
  rw [List.drop_zero, winSum_zero] at h
  rw [calculate_ma, h, List.range_eq_range']

/-- If the emit threshold `usizeSub1 window` is never reached, the loop
pushes only `None`s. -/
theorem maAux_all_none (data : List KLineData) (w : Nat) :
    ∀ (rest : List KLineData) (i : Nat) (sum : ℚ),
    (∀ j, j < rest.length → ¬ usizeSub1 w ≤ i + j) →
    maAux data w rest i sum = List.replicate rest.length none := by
  intro rest
  induction rest with
  | nil => intro i sum _; rfl
  | cons k rest ih =>
    intro i sum h
    have h0 : ¬ usizeSub1 w ≤ i := by
      have := h 0 (by simp)
      simpa using this
    simp only [maAux, List.length_cons, List.replicate_succ, if_neg h0]
    refine congrArg _ (ih (i + 1) _ ?_)
    intro j hj
    have := h (j + 1) (by simpa using Nat.succ_lt_succ hj)
    omega

theorem countP_range_ge (w n : Nat) :
    (List.range n).countP (fun j => decide (w ≤ j)) = n - w := by
  induction n with
  | zero => simp
  | succ n ih =>
    rw [List.range_succ, List.countP_append, ih]
    by_cases h : w ≤ n
    · simp [List.countP_cons, h]
      omega
    · simp [List.countP_cons, h]
      omega

/-- The fixed candle width, `ui.rs` line 324 (`let candle_width = 3usize`). -/
def candle_width : Nat := 3

/-- From `ui.rs` line 325: `visible_count = (chart_width / candle_width).min(len)`. -/
def visibleCount (chartWidth len : Nat) : Nat :=
  min (chartWidth / candle_width) len

/-- From `ui.rs` lines 328-332: the first visible index. -/
def startIdx (len vc offset : Nat) : Nat :=
  if vc + offset < len then len - vc - offset else 0

/-- From `ui.rs` line 333: `end_idx = (start_idx + visible_count).min(len)`. -/
def endIdx (len vc offset : Nat) : Nat :=
  min (startIdx len vc offset + vc) len

/-- The window selector of `draw_kline_chart` (`ui.rs` lines 324-334):
given the series length, the chart-canvas width and the pan offset,
the visible index range `[start, end)`. -/
def select_window (len chartWidth offset : Nat) : Nat × Nat :=
  let vc := visibleCount chartWidth len
  (startIdx len vc offset, endIdx len vc offset)

/-- From `ui.rs` lines 294-296: the chart canvas width carved out of a chart
area of total width `W` (2 columns of outer border, 10 of price axis);
`saturating_sub` is `ℕ` subtraction. -/
def draw_chart_width (W : Nat) : Nat := W - 2 - 10

/-- The first visible index of the window the chart actually draws, for a
chart area of total width `W` (`draw_kline_chart`). -/
def draw_window_start (len offset W : Nat) : Nat :=
  startIdx len (visibleCount (draw_chart_width W) len) offset

/-- The claim's window-selector formulas, stated verbatim from the spec
(§4.3): `visible_count = min(⌊W / 3⌋, L)`; `start = L - visible_count - P`
when `L > visible_count + P`, else `0`; `end = min(start + visible_count, L)`. -/
def spec_select_window (len chartWidth offset : Nat) : Nat × Nat :=
  let vc := min (chartWidth / 3) len
  let start := if len > vc + offset then len - vc - offset else 0
  (start, min (start + vc) len)

/-- The application state, `app.rs` `App`.  `watchlist_state` is reduced to
its observable `selected()` value; `input_mode`, `input_buffer`,
`status_message` and `loading` only affect messages and the add-stock typing
flow, which is condensed into a single `confirm_add_stock` event carrying
the final buffer contents. -/
structure App where
  should_quit : Bool
  watchlist : List String
  selected : Option Nat
  active_index : Nat
  quotes : List (Option StockQuote)
  kline_data : List KLineData
  timeframe : TimeFrame
  view_mode : ViewMode
  kline_offset : Nat
  kline_cursor : Option Nat
deriving DecidableEq

/-- From `app.rs` `highlighted_index`: `selected().unwrap_or(0)`. -/
def App.highlighted_index (s : App) : Nat := s.selected.getD 0

/-- From `app.rs` `refresh_quotes`; the network layer is the oracle `fetch`
(`fetch_multiple_quotes` maps it over the watchlist, an `Err` becoming
`None`).  Status-message updates are not modelled. -/
def App.refresh_quotes (s : App) (fetch : String → Option StockQuote) : App :=
  if s.watchlist = [] then { s with quotes := [] }
  else { s with quotes := s.watchlist.map fetch }

/-- From `app.rs` `refresh_kline`; `res` is the oracle outcome of
`fetch_kline_data` for the active symbol (`none` = `Err`). -/
def App.refresh_kline (s : App) (res : Option (List KLineData)) : App :=
  match s.watchlist.get? s.active_index with
  | some _ =>
    match res with
    | some data => { s with kline_data := data, kline_offset := 0, kline_cursor := none }
    | none => { s with kline_data := [] }
  | none => { s with kline_data := [] }

/-- From `app.rs` `refresh_all` (quotes first, then the k-line data). -/
def App.refresh_all (s : App) (fetch : String → Option StockQuote)
    (res : Option (List KLineData)) : App :=
  (s.refresh_quotes fetch).refresh_kline res

/-- From `app.rs` `App::new`: the config's watchlist, one `None` quote slot per
symbol, row 0 selected when non-empty, then `refresh_all`.  (The `usize`
underflow in `select_prev`/`select_next` on an empty watchlist, a
debug-build panic, is modelled saturating; it never affects the lists.) -/
def App.new (watchlist : List String) (fetch : String → Option StockQuote)
    (res : Option (List KLineData)) : App :=
  let s : App := {
    should_quit := false
    watchlist := watchlist
    selected := if watchlist.isEmpty then none else some 0
    active_index := 0
    quotes := watchlist.map fun _ => none
    kline_data := []
    timeframe := .daily
    view_mode := .normal
    kline_offset := 0
    kline_cursor := none }
  s.refresh_all fetch res

/-- From `app.rs` `select_prev`. -/
def App.select_prev (s : App) : App :=
  let i := match s.selected with
    | some i => if i = 0 then s.watchlist.length - 1 else i - 1
    | none => 0
  { s with selected := some i }

/-- From `app.rs` `select_next`. -/
def App.select_next (s : App) : App :=
  let i := match s.selected with
    | some i => if s.watchlist.length - 1 ≤ i then 0 else i + 1
    | none => 0
  { s with selected := some i }

/-- From `app.rs` `toggle_fullscreen`. -/
def App.toggle_fullscreen (s : App) : App :=
  { s with view_mode := match s.view_mode with
      | .normal => .fullscreenChart
      | .fullscreenChart => .normal }

/-- From `app.rs` `on_enter`: activate the highlighted stock (refetching its
k-line data) or, if already active, toggle fullscreen. -/
def App.on_enter (s : App) (res : Option (List KLineData)) : App :=
  let hl := s.highlighted_index
  if hl ≠ s.active_index then
    App.refresh_kline { s with active_index := hl } res
  else
    s.toggle_fullscreen

/-- From `app.rs` `set_timeframe`. -/
def App.set_timeframe (s : App) (tf : TimeFrame) (res : Option (List KLineData)) : App :=
  if s.timeframe ≠ tf then App.refresh_kline { s with timeframe := tf } res else s

/-- From `app.rs` `scroll_kline_left` (pan toward history). -/
def App.scroll_kline_left (s : App) : App :=
  let s := if s.kline_offset + 10 < s.kline_data.length
    then { s with kline_offset := s.kline_offset + 5 } else s
  { s with kline_cursor := none }

/-- From `app.rs` `scroll_kline_right` (pan toward the present). -/
def App.scroll_kline_right (s : App) : App :=
  let s := if 5 ≤ s.kline_offset
    then { s with kline_offset := s.kline_offset - 5 }
    else { s with kline_offset := 0 }
  { s with kline_cursor := none }

/-- From `app.rs` `visible_kline_count(chart_width)`: the caller passes the full
terminal width; 2 border + 10 price-axis columns are removed. -/
def App.visible_kline_count (s : App) (chart_width : Nat) : Nat :=
  min ((chart_width - 12) / candle_width) s.kline_data.length

/-- From `app.rs` `cursor_left`. -/
def App.cursor_left (s : App) (max_visible : Nat) : App :=
  match s.kline_cursor with
  | some pos => if 0 < pos then { s with kline_cursor := some (pos - 1) } else s
  | none =>
    if s.kline_data ≠ [] then
      { s with kline_cursor := some (min max_visible s.kline_data.length - 1) }
    else s

/-- From `app.rs` `cursor_right`. -/
def App.cursor_right (s : App) (max_visible : Nat) : App :=
  match s.kline_cursor with
  | some pos =>
    let limit := min max_visible s.kline_data.length - 1
    if pos < limit then { s with kline_cursor := some (pos + 1) } else s
  | none =>
    if s.kline_data ≠ [] then
      { s with kline_cursor := some (min max_visible s.kline_data.length - 1) }
    else s

/-- From `app.rs` `cursor_kline(chart_width)`: resolves the cursor to an absolute
bar.  NOTE: its `inner_width` subtracts only the 2 border columns
(`chart_width.saturating_sub(2)`), not the 10 price-axis columns that
`visible_kline_count` and `draw_kline_chart` also remove. -/
def App.cursor_kline (s : App) (chart_width : Nat) : Option KLineData :=
  match s.kline_cursor with
  | none => none
  | some cursor_pos =>
    let inner_width := chart_width - 2
    let vc := min (inner_width / candle_width) s.kline_data.length
    let start_idx :=
      if vc + s.kline_offset < s.kline_data.length
      then s.kline_data.length - vc - s.kline_offset
      else 0
    s.kline_data.get? (start_idx + cursor_pos)

/-- The `us` → `gb_` prefix rewrite of `confirm_add_stock` (the Rust
`replacen("us", "gb_", 1)` is guarded by `starts_with("us")`, so it
replaces exactly the prefix). -/
def usToGb (symbol : String) : String :=
  if symbol.startsWith "us" then "gb_" ++ symbol.drop 2 else symbol

/-- From `app.rs` `confirm_add_stock`; `input` is the final input-buffer text and
`fetch` the oracle result of `fetch_realtime_quote` for the new symbol. -/
def App.confirm_add_stock (s : App) (input : String) (fetch : Option StockQuote) : App :=
  let symbol := input.trim.toLower
  if symbol = "" then s
  else
    let symbol := usToGb symbol
    if ¬ (symbol.startsWith "sh" ∨ symbol.startsWith "sz" ∨ symbol.startsWith "bj" ∨
          symbol.startsWith "hk" ∨ symbol.startsWith "gb_") then s
    else if symbol ∈ s.watchlist then s
    else
      let s := { s with watchlist := s.watchlist ++ [symbol], quotes := s.quotes ++ [none] }
      match fetch with
      | some q => { s with quotes := s.quotes.set (s.quotes.length - 1) (some q) }
      | none => s

/-- From `app.rs` `delete_selected`; `res` is the oracle for the final
`refresh_kline`.  `Vec::remove` is modelled by `List.eraseIdx` (the index is
in bounds in every reachable call). -/
def App.delete_selected (s : App) (res : Option (List KLineData)) : App :=
  if s.watchlist.length ≤ 1 then s
  else
    let idx := s.highlighted_index
    let s := { s with watchlist := s.watchlist.eraseIdx idx,
                      quotes := s.quotes.eraseIdx idx }
    let s := if s.watchlist.length ≤ idx
      then { s with selected := some (s.watchlist.length - 1) }
      else { s with selected := some idx }
    let s := { s with active_index := s.highlighted_index }
    s.refresh_kline res

/-- The debounced events of the `main.rs` normal-mode loop, each carrying the
oracle outcome of any network fetch its handler performs.  `key_left` /
`key_right` carry the terminal width the loop read for
`visible_kline_count`; `add_stock` condenses the `a` / typing / `Enter`
input-mode flow into one event with the final buffer. -/
inductive AppEvent where
  | key_q
  | key_esc
  | key_f
  | key_enter (res : Option (List KLineData))
  | key_up
  | key_down
  | key_left (term_width : Nat)
  | key_right (term_width : Nat)
  | key_pageup
  | key_pagedown
  | add_stock (input : String) (fetch : Option StockQuote)
  | key_d (res : Option (List KLineData))
  | key_r (fetch : String → Option StockQuote) (res : Option (List KLineData))
  | key_tf (tf : TimeFrame) (res : Option (List KLineData))
  | tick (fetch : String → Option StockQuote)
  | resize (w h : Nat)

/-- One iteration of the `main.rs` event loop (normal input mode),
`main.rs` lines 46-185.  The `Resize` arm is empty in the source
("terminal resize redraws automatically") — the state is untouched. -/
def step (e : AppEvent) (s : App) : App :=
  match e with
  | .key_q => { s with should_quit := true }
  | .key_esc =>
    if s.kline_cursor.isSome then { s with kline_cursor := none }
    else if s.view_mode = .fullscreenChart then s.toggle_fullscreen
    else { s with should_quit := true }
  | .key_f => s.toggle_fullscreen
  | .key_enter res => s.on_enter res
  | .key_up => if s.view_mode = .normal then s.select_prev else s
  | .key_down => if s.view_mode = .normal then s.select_next else s
  | .key_left tw => s.cursor_left (s.visible_kline_count tw)
  | .key_right tw => s.cursor_right (s.visible_kline_count tw)
  | .key_pageup => s.scroll_kline_left
  | .key_pagedown => s.scroll_kline_right
  | .add_stock input fetch => s.confirm_add_stock input fetch
  | .key_d res => if s.view_mode = .normal then s.delete_selected res else s
  | .key_r fetch res => s.refresh_all fetch res
  | .key_tf tf res => s.set_timeframe tf res
  | .tick fetch => s.refresh_quotes fetch
  | .resize _ _ => s

/-- The application states reachable from start-up. -/
inductive Reachable : App → Prop
  | init (watchlist : List String) (fetch : String → Option StockQuote)
      (res : Option (List KLineData)) : Reachable (App.new watchlist fetch res)
  | step (e : AppEvent) (s : App) : Reachable s → Reachable (step e s)

/-- The Rust `ma.get(global_idx).and_then(|&v| v)`: the overlay value, if any, of a
moving-average series at a global index. -/
def maAt (ma : List (Option ℚ)) (i : Nat) : Option ℚ :=
  (ma.get? i).bind id

/-- The update `min_price.min(x)` with a `none` accumulator standing for the untouched
`f64::MAX` sentinel. -/
def updMin (acc : Option ℚ) (x : ℚ) : Option ℚ :=
  match acc with
  | none => some x
  | some m => some (min m x)

/-- The update `max_price.max(x)` with the `f64::MIN` sentinel as `none`. -/
def updMax (acc : Option ℚ) (x : ℚ) : Option ℚ :=
  match acc with
  | none => some x
  | some m => some (max m x)

/-- The Rust step `if let Some(v) = ma.get(idx)` then `min, max`: fold one optional
overlay value into both accumulators. -/
def updMA (v : Option ℚ) (acc : Option ℚ × Option ℚ) : Option ℚ × Option ℚ :=
  match v with
  | some x => (updMin acc.1 x, updMax acc.2 x)
  | none => acc

/-- The price-range loop of `draw_kline_chart` (`ui.rs` lines 341-361): for
each visible bar (global index `gi` counting from `start_idx`) fold in its
low / high and any MA5 / MA10 / MA20 value at `gi`. -/
def axisFold (ma5 ma10 ma20 : List (Option ℚ)) :
    Nat → Option ℚ × Option ℚ → List KLineData → Option ℚ × Option ℚ
  | _, acc, [] => acc
  | gi, acc, k :: rest =>
    let acc := (updMin acc.1 k.low, updMax acc.2 k.high)
    let acc := updMA (maAt ma5 gi) acc
    let acc := updMA (maAt ma10 gi) acc
    let acc := updMA (maAt ma20 gi) acc
    axisFold ma5 ma10 ma20 (gi + 1) acc rest

/-- The axis scaler of `draw_kline_chart` (`ui.rs` lines 341-367): raw
min/max over the visible bars and in-range overlay values, then the 5%
margin (`0.05` exactly `1/20`) added symmetrically.  The source returns
before this point when the visible slice is empty, so the sentinel case is
arbitrary (`(0, 0)`). -/
def scale_axis (visible : List KLineData) (start_idx : Nat)
    (ma5 ma10 ma20 : List (Option ℚ)) : ℚ × ℚ :=
  match axisFold ma5 ma10 ma20 start_idx (none, none) visible with
  | (some mn, some mx) =>
    let margin := (mx - mn) * (1 / 20)
    (mn - margin, mx + margin)
  | _ => (0, 0)

/-- From `ui.rs` lines 444-449: the per-row price step of the candle painter
(`final_range / inner_h` when the canvas height is positive, else `1.0`). -/
def row_step (final_range inner_h : ℚ) : ℚ :=
  if 0 < inner_h then final_range / inner_h else 1

/-- From `ui.rs` line 466: the guard under which a candle degenerates to a single
point (`row_step <= 0.0 || final_range <= 0.0`). -/
def single_point_branch (rs final_range : ℚ) : Prop :=
  rs ≤ 0 ∨ final_range ≤ 0

/-- The row → price mapping of the grid/axis code (`ui.rs` lines 375-376 and
526-527): `price = min_price + final_range * (1 - i / max(h-1, 1))`. -/
def rowPrice (min_price final_range : ℚ) (chart_height i : Nat) : ℚ :=
  min_price + final_range * (1 - (i : ℚ) / ((max (chart_height - 1) 1 : Nat) : ℚ))

/-- Modelled from the spec: the price → row projection of the Render
Projector (§4.6), `row = round((max_price - price) / (max_price - min_price)
* (viewport_height - 1))` clamped to `[0, viewport_height - 1]`.  The source
delegates this direction to the terminal canvas library (the candles, grid
and MA lines are all painted into one canvas with
`y_bounds([min_price, max_price])`); only the row → price direction
(`rowPrice`) appears in `src`. -/
def projRow (min_price max_price : ℚ) (viewport_height : Nat) (price : ℚ) : Nat :=
  (min (round ((max_price - price) / (max_price - min_price) *
      ((viewport_height : ℚ) - 1))) ((viewport_height : ℤ) - 1)).toNat

/-- The values folded into the min accumulator for one bar at global index
`gi`: its low, then any MA5/MA10/MA20 value there. -/
def barMins (ma5 ma10 ma20 : List (Option ℚ)) (gi : Nat) (k : KLineData) : List ℚ :=
  k.low :: ((maAt ma5 gi).toList ++ (maAt ma10 gi).toList ++ (maAt ma20 gi).toList)

/-- The values folded into the max accumulator for one bar. -/
def barMaxs (ma5 ma10 ma20 : List (Option ℚ)) (gi : Nat) (k : KLineData) : List ℚ :=
  k.high :: ((maAt ma5 gi).toList ++ (maAt ma10 gi).toList ++ (maAt ma20 gi).toList)

/-- All values the min accumulator sees over a run of visible bars. -/
def minsSeq (ma5 ma10 ma20 : List (Option ℚ)) : Nat → List KLineData → List ℚ
  | _, [] => []
  | gi, k :: rest =>
    barMins ma5 ma10 ma20 gi k ++ minsSeq ma5 ma10 ma20 (gi + 1) rest

/-- All values the max accumulator sees over a run of visible bars. -/
def maxsSeq (ma5 ma10 ma20 : List (Option ℚ)) : Nat → List KLineData → List ℚ
  | _, [] => []
  | gi, k :: rest =>
    barMaxs ma5 ma10 ma20 gi k ++ maxsSeq ma5 ma10 ma20 (gi + 1) rest

theorem axisFold_eq (ma5 ma10 ma20 : List (Option ℚ)) :
    ∀ (L : List KLineData) (gi : Nat) (acc : Option ℚ × Option ℚ),
    axisFold ma5 ma10 ma20 gi acc L =
      ((minsSeq ma5 ma10 ma20 gi L).foldl updMin acc.1,
       (maxsSeq ma5 ma10 ma20 gi L).foldl updMax acc.2) := by
  intro L
  induction L with
  | nil => intro gi acc; simp [axisFold, minsSeq, maxsSeq]
  | cons k rest ih =>
    intro gi acc
    rw [minsSeq, maxsSeq]
    show axisFold ma5 ma10 ma20 (gi + 1)
        (updMA (maAt ma20 gi) (updMA (maAt ma10 gi)
          (updMA (maAt ma5 gi) (updMin acc.1 k.low, updMax acc.2 k.high)))) rest = _
    rw [ih]
    rw [List.foldl_append, List.foldl_append]
    congr 1
    · rcases h5 : maAt ma5 gi with _ | v5 <;>
      rcases h10 : maAt ma10 gi with _ | v10 <;>
      rcases h20 : maAt ma20 gi with _ | v20 <;>
        simp [barMins, updMA, h5, h10, h20]
    · rcases h5 : maAt ma5 gi with _ | v5 <;>
      rcases h10 : maAt ma10 gi with _ | v10 <;>
      rcases h20 : maAt ma20 gi with _ | v20 <;>
        simp [barMaxs, updMA, h5, h10, h20]

theorem foldl_updMin_le (xs : List ℚ) :
    ∀ (acc : Option ℚ) (m : ℚ), xs.foldl updMin acc = some m →
      (∀ b, acc = some b → m ≤ b) ∧ (∀ a ∈ xs, m ≤ a) := by
  induction xs with
  | nil =>
    intro acc m h
    refine ⟨fun b hb => ?_, by simp⟩
    simp only [List.foldl_nil] at h
    rw [hb] at h
    exact le_of_eq (Option.some.inj h).symm
  | cons x xs ih =>
    intro acc m h
    simp only [List.foldl_cons] at h
    obtain ⟨h1, h2⟩ := ih (updMin acc x) m h
    have hx : m ≤ x := by
      rcases acc with _ | b
      · exact h1 x rfl
      · exact le_trans (h1 _ rfl) (min_le_right b x)
    refine ⟨fun b hb => ?_, ?_⟩
    · rw [hb] at h1
      exact le_trans (h1 _ rfl) (min_le_left b x)
    · intro a ha
      rcases List.mem_cons.mp ha with rfl | ha
      · exact hx
      · exact h2 a ha

theorem foldl_updMax_ge (xs : List ℚ) :
    ∀ (acc : Option ℚ) (m : ℚ), xs.foldl updMax acc = some m →
      (∀ b, acc = some b → b ≤ m) ∧ (∀ a ∈ xs, a ≤ m) := by
  induction xs with
  | nil =>
    intro acc m h
    refine ⟨fun b hb => ?_, by simp⟩
    simp only [List.foldl_nil] at h
    rw [hb] at h
    exact le_of_eq (Option.some.inj h)
  | cons x xs ih =>
    intro acc m h
    simp only [List.foldl_cons] at h
    obtain ⟨h1, h2⟩ := ih (updMax acc x) m h
    have hx : x ≤ m := by
      rcases acc with _ | b
      · exact h1 x rfl
      · exact le_trans (le_max_right b x) (h1 _ rfl)
    refine ⟨fun b hb => ?_, ?_⟩
    · rw [hb] at h1
      exact le_trans (le_max_left b x) (h1 _ rfl)
    · intro a ha
      rcases List.mem_cons.mp ha with rfl | ha
      · exact hx
      · exact h2 a ha

theorem foldl_updMin_isSome (xs : List ℚ) :
    ∀ (acc : Option ℚ), acc.isSome ∨ xs ≠ [] → (xs.foldl updMin acc).isSome := by
  induction xs with
  | nil =>
    intro acc h
    rcases h with h | h
    · simpa using h
    · simp at h
  | cons x xs ih =>
    intro acc _
    simp only [List.foldl_cons]
    refine ih (updMin acc x) (Or.inl ?_)
    rcases acc with _ | b <;> simp [updMin]

theorem foldl_updMax_isSome (xs : List ℚ) :
    ∀ (acc : Option ℚ), acc.isSome ∨ xs ≠ [] → (xs.foldl updMax acc).isSome := by
  induction xs with
  | nil =>
    intro acc h
    rcases h with h | h
    · simpa using h
    · simp at h
  | cons x xs ih =>
    intro acc _
    simp only [List.foldl_cons]
    refine ih (updMax acc x) (Or.inl ?_)
    rcases acc with _ | b <;> simp [updMax]

theorem low_mem_minsSeq (ma5 ma10 ma20 : List (Option ℚ)) :
    ∀ (L : List KLineData) (gi : Nat) (k : KLineData), k ∈ L →
      k.low ∈ minsSeq ma5 ma10 ma20 gi L := by
  intro L
  induction L with
  | nil => intro gi k h; simp at h
  | cons b rest ih =>
    intro gi k h
    rw [minsSeq, List.mem_append]
    rcases List.mem_cons.mp h with rfl | h
    · exact Or.inl (List.mem_cons_self _ _)
    · exact Or.inr (ih (gi + 1) k h)

theorem high_mem_maxsSeq (ma5 ma10 ma20 : List (Option ℚ)) :
    ∀ (L : List KLineData) (gi : Nat) (k : KLineData), k ∈ L →
      k.high ∈ maxsSeq ma5 ma10 ma20 gi L := by
  intro L
  induction L with
  | nil => intro gi k h; simp at h
  | cons b rest ih =>
    intro gi k h
    rw [maxsSeq, List.mem_append]
    rcases List.mem_cons.mp h with rfl | h
    · exact Or.inl (List.mem_cons_self _ _)
    · exact Or.inr (ih (gi + 1) k h)

theorem ma_mem_barMins (ma5 ma10 ma20 : List (Option ℚ)) (gi : Nat) (k : KLineData)
    (v : ℚ)
    (h : maAt ma5 gi = some v ∨ maAt ma10 gi = some v ∨ maAt ma20 gi = some v) :
    v ∈ barMins ma5 ma10 ma20 gi k := by
  rw [barMins, List.mem_cons, List.mem_append, List.mem_append]
  rcases h with h | h | h
  · exact Or.inr (Or.inl (Or.inl (by simp [h])))
  · exact Or.inr (Or.inl (Or.inr (by simp [h])))
  · exact Or.inr (Or.inr (by simp [h]))

theorem ma_mem_barMaxs (ma5 ma10 ma20 : List (Option ℚ)) (gi : Nat) (k : KLineData)
    (v : ℚ)
    (h : maAt ma5 gi = some v ∨ maAt ma10 gi = some v ∨ maAt ma20 gi = some v) :
    v ∈ barMaxs ma5 ma10 ma20 gi k := by
  rw [barMaxs, List.mem_cons, List.mem_append, List.mem_append]
  rcases h with h | h | h
  · exact Or.inr (Or.inl (Or.inl (by simp [h])))
  · exact Or.inr (Or.inl (Or.inr (by simp [h])))
  · exact Or.inr (Or.inr (by simp [h]))

theorem ma_mem_minsSeq (ma5 ma10 ma20 : List (Option ℚ)) :
    ∀ (L : List KLineData) (gi i : Nat) (v : ℚ), i < L.length →
      (maAt ma5 (gi + i) = some v ∨ maAt ma10 (gi + i) = some v ∨
        maAt ma20 (gi + i) = some v) →
      v ∈ minsSeq ma5 ma10 ma20 gi L := by
  intro L
  induction L with
  | nil => intro gi i v h; simp at h
  | cons b rest ih =>
    intro gi i v hi h
    rw [minsSeq, List.mem_append]
    rcases i with _ | i
    · exact Or.inl (ma_mem_barMins ma5 ma10 ma20 gi b v (by simpa using h))
    · refine Or.inr (ih (gi + 1) i v (by simpa using Nat.lt_of_succ_lt_succ hi) ?_)
      have : gi + (i + 1) = gi + 1 + i := by omega
      rwa [this] at h

theorem ma_mem_maxsSeq (ma5 ma10 ma20 : List (Option ℚ)) :
    ∀ (L : List KLineData) (gi i : Nat) (v : ℚ), i < L.length →
      (maAt ma5 (gi + i) = some v ∨ maAt ma10 (gi + i) = some v ∨
        maAt ma20 (gi + i) = some v) →
      v ∈ maxsSeq ma5 ma10 ma20 gi L := by
  intro L
  induction L with
  | nil => intro gi i v h; simp at h
  | cons b rest ih =>
    intro gi i v hi h
    rw [maxsSeq, List.mem_append]
    rcases i with _ | i
    · exact Or.inl (ma_mem_barMaxs ma5 ma10 ma20 gi b v (by simpa using h))
    · refine Or.inr (ih (gi + 1) i v (by simpa using Nat.lt_of_succ_lt_succ hi) ?_)
      have : gi + (i + 1) = gi + 1 + i := by omega
      rwa [this] at h

theorem minsSeq_ne_nil (ma5 ma10 ma20 : List (Option ℚ)) (gi : Nat)
    (L : List KLineData) (h : L ≠ []) : minsSeq ma5 ma10 ma20 gi L ≠ [] := by
  rcases L with _ | ⟨k, rest⟩
  · exact absurd rfl h
  · rw [minsSeq, barMins]
    simp

theorem maxsSeq_ne_nil (ma5 ma10 ma20 : List (Option ℚ)) (gi : Nat)
    (L : List KLineData) (h : L ≠ []) : maxsSeq ma5 ma10 ma20 gi L ≠ [] := by
  rcases L with _ | ⟨k, rest⟩
  · exact absurd rfl h
  · rw [maxsSeq, barMaxs]
    simp

/-- C3 (amended): for every non-empty visible window all of whose bars
satisfy `low ≤ high`, the axis scaler yields `min_price ≤ max_price`, every
visible bar's low and high and every overlay moving-average value whose
index falls in the visible range lies within `[min_price, max_price]`, and
the result is the raw low/high range extended by in-range overlay values
with a 5% margin of the raw range added symmetrically.  (Without the
`low ≤ high` proviso the margin can be negative and the bounds invert — see
the counterexample.) -/
theorem C3_axis_scaling_bounds (visible : List KLineData) (start_idx : Nat)
    (ma5 ma10 ma20 : List (Option ℚ))
    (hne : visible ≠ [])
    (hlh : ∀ k ∈ visible, k.low ≤ k.high) :
    (scale_axis visible start_idx ma5 ma10 ma20).1 ≤
      (scale_axis visible start_idx ma5 ma10 ma20).2 ∧
    (∀ k ∈ visible,
      (scale_axis visible start_idx ma5 ma10 ma20).1 ≤ k.low ∧
      k.high ≤ (scale_axis visible start_idx ma5 ma10 ma20).2) ∧
    (∀ i, i < visible.length → ∀ v,
      (maAt ma5 (start_idx + i) = some v ∨ maAt ma10 (start_idx + i) = some v ∨
        maAt ma20 (start_idx + i) = some v) →
      (scale_axis visible start_idx ma5 ma10 ma20).1 ≤ v ∧
      v ≤ (scale_axis visible start_idx ma5 ma10 ma20).2) ∧
    (∃ rmn rmx,
      axisFold ma5 ma10 ma20 start_idx (none, none) visible = (some rmn, some rmx) ∧
      (scale_axis visible start_idx ma5 ma10 ma20).1 = rmn - (rmx - rmn) * (1 / 20) ∧
      (scale_axis visible start_idx ma5 ma10 ma20).2 = rmx + (rmx - rmn) * (1 / 20)) := by
  have hfold := axisFold_eq ma5 ma10 ma20 visible start_idx (none, none)
  obtain ⟨rmn, hmn⟩ := Option.isSome_iff_exists.mp
    (foldl_updMin_isSome _ _ (Or.inr (minsSeq_ne_nil ma5 ma10 ma20 start_idx visible hne)))
  obtain ⟨rmx, hmx⟩ := Option.isSome_iff_exists.mp
    (foldl_updMax_isSome _ _ (Or.inr (maxsSeq_ne_nil ma5 ma10 ma20 start_idx visible hne)))
  have hfold2 : axisFold ma5 ma10 ma20 start_idx (none, none) visible =
      (some rmn, some rmx) := by rw [hfold, hmn, hmx]
  have hscale : scale_axis visible start_idx ma5 ma10 ma20 =
      (rmn - (rmx - rmn) * (1 / 20), rmx + (rmx - rmn) * (1 / 20)) := by
    rw [scale_axis, hfold2]
  have hminle := (foldl_updMin_le _ _ _ hmn).2
  have hmaxge := (foldl_updMax_ge _ _ _ hmx).2
  have hlow : ∀ k ∈ visible, rmn ≤ k.low := fun k hk =>
    hminle _ (low_mem_minsSeq ma5 ma10 ma20 visible start_idx k hk)
  have hhigh : ∀ k ∈ visible, k.high ≤ rmx := fun k hk =>
    hmaxge _ (high_mem_maxsSeq ma5 ma10 ma20 visible start_idx k hk)
  have hmnmx : rmn ≤ rmx := by
    rcases visible with _ | ⟨k0, rest⟩
    · exact absurd rfl hne
    · have h1 := hlow k0 (List.mem_cons_self _ _)
      have h2 := hhigh k0 (List.mem_cons_self _ _)
      have h3 := hlh k0 (List.mem_cons_self _ _)
      linarith
  rw [hscale]
  refine ⟨by dsimp only; linarith, fun k hk => ⟨?_, ?_⟩, fun i hi v hv => ⟨?_, ?_⟩,
    rmn, rmx, hfold2, rfl, rfl⟩
  · have := hlow k hk; dsimp only; linarith
  · have := hhigh k hk; dsimp only; linarith
  · have := hminle v (ma_mem_minsSeq ma5 ma10 ma20 visible start_idx i v hi hv)
    dsimp only; linarith
  · have := hmaxge v (ma_mem_maxsSeq ma5 ma10 ma20 visible start_idx i v hi hv)
    dsimp only; linarith

/-- A malformed provider bar with `low > high` (the data model enforces no
order between OHLC fields). -/
def badBar : KLineData := ⟨"", 150, 100, 200, 150, 0⟩

/-- A well-formed bar (`low ≤ high`). -/
def goodBar : KLineData := ⟨"", 10, 12, 9, 11, 0⟩

/-- C3 counterexample: on the single-bar window `[badBar]` (`low = 200`,
`high = 100`, no moving-average value falls in range) the raw range is
negative, the "5% margin" is `-5`, and the scaler returns
`min_price = 205 > 95 = max_price`; the bar's low also escapes the range.
This falsifies the claim as stated (it promises `min_price ≤ max_price` and
containment for *every* non-empty window). -/
theorem C3_counterexample :
    scale_axis [badBar] 0 (calculate_ma [badBar] 5) (calculate_ma [badBar] 10)
      (calculate_ma [badBar] 20) = (205, 95) ∧
    ¬ ((scale_axis [badBar] 0 (calculate_ma [badBar] 5) (calculate_ma [badBar] 10)
      (calculate_ma [badBar] 20)).1 ≤
      (scale_axis [badBar] 0 (calculate_ma [badBar] 5) (calculate_ma [badBar] 10)
      (calculate_ma [badBar] 20)).2) ∧
    ¬ ((scale_axis [badBar] 0 (calculate_ma [badBar] 5) (calculate_ma [badBar] 10)
      (calculate_ma [badBar] 20)).1 ≤ badBar.low) := by
  have h : scale_axis [badBar] 0 (calculate_ma [badBar] 5) (calculate_ma [badBar] 10)
      (calculate_ma [badBar] 20) = (205, 95) := by
    norm_num [scale_axis, axisFold, updMA, updMin, updMax, maAt, calculate_ma, maAux,
      usizeSub1, USIZE, closeAt, badBar]
  refine ⟨h, ?_, ?_⟩ <;> rw [h] <;> norm_num [badBar]

/-- Witness for `C3_axis_scaling_bounds` at a concrete well-formed window. -/
theorem C3_axis_scaling_bounds_witness :
    (scale_axis [goodBar] 0 [] [] []).1 ≤ (scale_axis [goodBar] 0 [] [] []).2 ∧
    (scale_axis [goodBar] 0 [] [] []).1 ≤ goodBar.low := by
  have h := C3_axis_scaling_bounds [goodBar] 0 [] [] [] (by simp)
    (by intro k hk; rw [List.mem_singleton] at hk; subst hk; norm_num [goodBar])
  exact ⟨h.1, (h.2.1 goodBar (List.mem_singleton_self _)).1⟩

theorem foldl_updMin_const (p : ℚ) :
    ∀ xs : List ℚ, (∀ a ∈ xs, a = p) → xs.foldl updMin (some p) = some p := by
  intro xs
  induction xs with
  | nil => intro _; rfl
  | cons x xs ih =>
    intro h
    have hx : x = p := h x (List.mem_cons_self _ _)
    simp only [List.foldl_cons, updMin, hx, min_self]
    exact ih fun a ha => h a (List.mem_cons_of_mem _ ha)

theorem foldl_updMax_const (p : ℚ) :
    ∀ xs : List ℚ, (∀ a ∈ xs, a = p) → xs.foldl updMax (some p) = some p := by
  intro xs
  induction xs with
  | nil => intro _; rfl
  | cons x xs ih =>
    intro h
    have hx : x = p := h x (List.mem_cons_self _ _)
    simp only [List.foldl_cons, updMax, hx, max_self]
    exact ih fun a ha => h a (List.mem_cons_of_mem _ ha)

theorem foldl_updMin_const_none (p : ℚ) (xs : List ℚ)
    (h : ∀ a ∈ xs, a = p) (hne : xs ≠ []) : xs.foldl updMin none = some p := by
  rcases xs with _ | ⟨y, ys⟩
  · exact absurd rfl hne
  · have hy : y = p := h y (List.mem_cons_self _ _)
    simp only [List.foldl_cons, updMin, hy]
    exact foldl_updMin_const p ys fun a ha => h a (List.mem_cons_of_mem _ ha)

theorem foldl_updMax_const_none (p : ℚ) (xs : List ℚ)
    (h : ∀ a ∈ xs, a = p) (hne : xs ≠ []) : xs.foldl updMax none = some p := by
  rcases xs with _ | ⟨y, ys⟩
  · exact absurd rfl hne
  · have hy : y = p := h y (List.mem_cons_self _ _)
    simp only [List.foldl_cons, updMax, hy]
    exact foldl_updMax_const p ys fun a ha => h a (List.mem_cons_of_mem _ ha)

theorem minsSeq_all_eq (ma5 ma10 ma20 : List (Option ℚ)) (p : ℚ) :
    ∀ (L : List KLineData) (gi : Nat), (∀ k ∈ L, k.low = p) →
    (∀ i, i < L.length → maAt ma5 (gi + i) = none ∧ maAt ma10 (gi + i) = none ∧
      maAt ma20 (gi + i) = none) →
    ∀ a ∈ minsSeq ma5 ma10 ma20 gi L, a = p := by
  intro L
  induction L with
  | nil => intro gi _ _ a ha; simp [minsSeq] at ha
  | cons b rest ih =>
    intro gi hflat hma a ha
    rw [minsSeq, List.mem_append] at ha
    rcases ha with ha | ha
    · obtain ⟨h5, h10, h20⟩ := hma 0 (by simp)
      rw [Nat.add_zero] at h5 h10 h20
      rw [barMins, h5, h10, h20] at ha
      simp only [Option.toList_none, List.append_nil, List.nil_append,
        List.mem_singleton] at ha
      rw [ha]
      exact hflat b (List.mem_cons_self _ _)
    · refine ih (gi + 1) (fun k hk => hflat k (List.mem_cons_of_mem _ hk))
        (fun i hi => ?_) a ha
      have := hma (i + 1) (by simpa using Nat.succ_lt_succ hi)
      have harith : gi + (i + 1) = gi + 1 + i := by omega
      rwa [harith] at this

theorem maxsSeq_all_eq (ma5 ma10 ma20 : List (Option ℚ)) (p : ℚ) :
    ∀ (L : List KLineData) (gi : Nat), (∀ k ∈ L, k.high = p) →
    (∀ i, i < L.length → maAt ma5 (gi + i) = none ∧ maAt ma10 (gi + i) = none ∧
      maAt ma20 (gi + i) = none) →
    ∀ a ∈ maxsSeq ma5 ma10 ma20 gi L, a = p := by
  intro L
  induction L with
  | nil => intro gi _ _ a ha; simp [maxsSeq] at ha
  | cons b rest ih =>
    intro gi hflat hma a ha
    rw [maxsSeq, List.mem_append] at ha
    rcases ha with ha | ha
    · obtain ⟨h5, h10, h20⟩ := hma 0 (by simp)
      rw [Nat.add_zero] at h5 h10 h20
      rw [barMaxs, h5, h10, h20] at ha
      simp only [Option.toList_none, List.append_nil, List.nil_append,
        List.mem_singleton] at ha
      rw [ha]
      exact hflat b (List.mem_cons_self _ _)
    · refine ih (gi + 1) (fun k hk => hflat k (List.mem_cons_of_mem _ hk))
        (fun i hi => ?_) a ha
      have := hma (i + 1) (by simpa using Nat.succ_lt_succ hi)
      have harith : gi + (i + 1) = gi + 1 + i := by omega
      rwa [harith] at this

/-- C7 (amended): on a flat window (`low = high = p` on every visible bar,
no overlay value in range) the margin is `0` and the scaler returns the
degenerate zero-height range `min_price = max_price = p` — no minimum
epsilon range is substituted.  `min_price ≤ p ≤ max_price` holds, and the
degenerate range is handled downstream not by an epsilon but by the
`row_step <= 0.0 || final_range <= 0.0` guard, which draws a single point
(no division by the zero range ever happens). -/
theorem C7_flat_window_degenerate (visible : List KLineData) (p : ℚ) (start_idx : Nat)
    (ma5 ma10 ma20 : List (Option ℚ))
    (hne : visible ≠ [])
    (hflat : ∀ k ∈ visible, k.low = p ∧ k.high = p)
    (hma : ∀ i, i < visible.length → maAt ma5 (start_idx + i) = none ∧
      maAt ma10 (start_idx + i) = none ∧ maAt ma20 (start_idx + i) = none) :
    scale_axis visible start_idx ma5 ma10 ma20 = (p, p) ∧
    (scale_axis visible start_idx ma5 ma10 ma20).2 -
      (scale_axis visible start_idx ma5 ma10 ma20).1 = 0 ∧
    (scale_axis visible start_idx ma5 ma10 ma20).1 ≤ p ∧
    p ≤ (scale_axis visible start_idx ma5 ma10 ma20).2 ∧
    (∀ inner_h : ℚ, single_point_branch
      (row_step ((scale_axis visible start_idx ma5 ma10 ma20).2 -
        (scale_axis visible start_idx ma5 ma10 ma20).1) inner_h)
      ((scale_axis visible start_idx ma5 ma10 ma20).2 -
        (scale_axis visible start_idx ma5 ma10 ma20).1)) := by
  have hmins := minsSeq_all_eq ma5 ma10 ma20 p visible start_idx
    (fun k hk => (hflat k hk).1) hma
  have hmaxs := maxsSeq_all_eq ma5 ma10 ma20 p visible start_idx
    (fun k hk => (hflat k hk).2) hma
  have hscale : scale_axis visible start_idx ma5 ma10 ma20 = (p, p) := by
    rw [scale_axis, axisFold_eq,
      foldl_updMin_const_none p _ hmins (minsSeq_ne_nil ma5 ma10 ma20 start_idx visible hne),
      foldl_updMax_const_none p _ hmaxs (maxsSeq_ne_nil ma5 ma10 ma20 start_idx visible hne)]
    norm_num
  rw [hscale]
  refine ⟨rfl, by norm_num, le_refl p, le_refl p, fun inner_h => Or.inr (by norm_num)⟩

/-- The spec's degenerate scenario: a single bar with `low = high = 100`. -/
def flatBar : KLineData := ⟨"", 100, 100, 100, 100, 0⟩

/-- C7 counterexample: on the single-bar window `[flatBar]`
(`low = high = 100`) the scaler returns `(100, 100)` — the final price range
has height exactly `0`, so no "minimum epsilon range" is substituted and no
"usable non-zero-height price range" is produced, falsifying that part of
the claim (the `min_price ≤ 100 ≤ max_price` part does hold). -/
theorem C7_counterexample :
    scale_axis [flatBar] 0 (calculate_ma [flatBar] 5) (calculate_ma [flatBar] 10)
      (calculate_ma [flatBar] 20) = (100, 100) ∧
    (scale_axis [flatBar] 0 (calculate_ma [flatBar] 5) (calculate_ma [flatBar] 10)
      (calculate_ma [flatBar] 20)).2 -
    (scale_axis [flatBar] 0 (calculate_ma [flatBar] 5) (calculate_ma [flatBar] 10)
      (calculate_ma [flatBar] 20)).1 = 0 ∧
    ¬ ((scale_axis [flatBar] 0 (calculate_ma [flatBar] 5) (calculate_ma [flatBar] 10)
      (calculate_ma [flatBar] 20)).1 <
      (scale_axis [flatBar] 0 (calculate_ma [flatBar] 5) (calculate_ma [flatBar] 10)
      (calculate_ma [flatBar] 20)).2) := by
  have h : scale_axis [flatBar] 0 (calculate_ma [flatBar] 5) (calculate_ma [flatBar] 10)
      (calculate_ma [flatBar] 20) = (100, 100) := by
    norm_num [scale_axis, axisFold, updMA, updMin, updMax, maAt, calculate_ma, maAux,
      usizeSub1, USIZE, closeAt, flatBar]
  refine ⟨h, ?_, ?_⟩ <;> rw [h] <;> norm_num

/-- Witness for `C7_flat_window_degenerate` at the spec's scenario input. -/
theorem C7_flat_window_degenerate_witness :
    scale_axis [flatBar] 0 [] [] [] = (100, 100) ∧
    (scale_axis [flatBar] 0 [] [] []).1 ≤ 100 ∧
    (100 : ℚ) ≤ (scale_axis [flatBar] 0 [] [] []).2 := by
  have h := C7_flat_window_degenerate [flatBar] 100 0 [] [] [] (by simp)
    (by intro k hk; rw [List.mem_singleton] at hk; subst hk; norm_num [flatBar])
    (by intro i _; refine ⟨rfl, rfl, rfl⟩)
  exact ⟨h.1, h.2.2.1, h.2.2.2.1⟩

/-- C1: the visible window is `visible_count = min(W / 3, L)`,
`start = L - visible_count - P` when `L > visible_count + P` (else `0`,
panning saturating at the oldest data), `end = min(start + visible_count,
L)`; and the spec's scenarios at `L = 100`, `W = 60` (so
`visible_count = 20`): `P = 0 ↦ (80, 100)`, `P = 90 ↦ (0, 20)`. -/
theorem C1_window_selector :
    (∀ L W P, select_window L W P = spec_select_window L W P) ∧
    visibleCount 60 100 = 20 ∧
    select_window 100 60 0 = (80, 100) ∧
    select_window 100 60 90 = (0, 20) :=
  ⟨fun _ _ _ => rfl, by decide, by decide, by decide⟩

/-- The five-bar series with closes `[10, 20, 30, 40, 50]` of the spec's
moving-average scenario (mirroring the fixture of the `models.rs` test). -/
def maTestBars : List KLineData :=
  [⟨"2023-01-01", 0, 0, 0, 10, 0⟩, ⟨"2023-01-01", 0, 0, 0, 20, 0⟩,
   ⟨"2023-01-01", 0, 0, 0, 30, 0⟩, ⟨"2023-01-01", 0, 0, 0, 40, 0⟩,
   ⟨"2023-01-01", 0, 0, 0, 50, 0⟩]

/-- C2: for every bar series and window `w ≥ 1` (a `usize`),
`calculate_ma` returns a list of the series' length whose element `i` is
`None` for `i < w - 1` and the arithmetic mean of the closes over bars
`[i-w+1, i]` otherwise (that window really has `w` elements); it has
exactly `len - w + 1` `Some`s when `len ≥ w` and none otherwise; and on
closes `[10,20,30,40,50]` with `w = 3` it returns
`[None, None, Some 20, Some 30, Some 40]`. -/
theorem C2_moving_average (data : List KLineData) (w : Nat)
    (hw : 1 ≤ w) (hw2 : w < USIZE) :
    (calculate_ma data w).length = data.length ∧
    (∀ i, i < data.length →
      (calculate_ma data w).get? i =
        some (if w - 1 ≤ i then some (maMean data w i) else none)) ∧
    (∀ i, w - 1 ≤ i → i < data.length → (maWindow data w i).length = w) ∧
    (w ≤ data.length → (calculate_ma data w).countP Option.isSome = data.length - w + 1) ∧
    (data.length < w → (calculate_ma data w).countP Option.isSome = 0) ∧
    calculate_ma maTestBars 3 = [none, none, some 20, some 30, some 40] := by
  have heq := calculate_ma_eq data w hw hw2
  have hcount : (calculate_ma data w).countP Option.isSome = data.length - (w - 1) := by
    rw [heq, List.countP_map]
    have hc : ∀ j ∈ List.range data.length,
        ((Option.isSome ∘ fun j => if w - 1 ≤ j then
          some (winSum (closes data) w (j + 1) / (w : ℚ)) else none) j = true ↔
        (fun j => decide (w - 1 ≤ j)) j = true) := by
      intro j _
      by_cases h : w - 1 ≤ j <;> simp [h] <;> omega
    rw [List.countP_congr hc, countP_range_ge]
  refine ⟨?_, ?_, ?_, ?_, ?_, ?_⟩
  · rw [heq]; simp
  · intro i hi
    rw [heq, List.get?_map, List.get?_range hi]
    rfl
  · intro i h1 h2
    rw [maWindow, List.length_drop, List.length_take, length_closes]
    omega
  · intro h; rw [hcount]; omega
  · intro h; rw [hcount]; omega
  · norm_num [calculate_ma, maAux, usizeSub1, USIZE, closeAt, maTestBars]

/-- Witness for `C2_moving_average` at the spec's concrete scenario. -/
theorem C2_moving_average_witness :
    (1 : Nat) ≤ 3 ∧
    calculate_ma maTestBars 3 = [none, none, some 20, some 30, some 40] :=
  ⟨by norm_num,
   (C2_moving_average maTestBars 3 (by norm_num) (by norm_num [USIZE])).2.2.2.2.2⟩

/-- C8: the moving average is total on its edge cases.  `window == 0` never
reaches the emit branch (the `usize` guard `i >= window - 1` wraps to
`i >= 2^64 - 1`) so the result is all `None` and in particular the division
`sum / window` never executes; `window > len` yields all `None`; an empty
series yields an empty result. -/
theorem C8_ma_edge_cases (data : List KLineData) (w : Nat)
    (h1 : data.length < USIZE) (h2 : w < USIZE) :
    calculate_ma data 0 = List.replicate data.length none ∧
    (data.length < w → calculate_ma data w = List.replicate data.length none) ∧
    calculate_ma ([] : List KLineData) w = [] := by
  refine ⟨?_, ?_, rfl⟩
  · rw [calculate_ma]
    apply maAux_all_none
    intro j hj
    rw [usizeSub1_zero]
    unfold USIZE at *
    omega
  · intro hlt
    have hw : 1 ≤ w := by omega
    rw [calculate_ma]
    apply maAux_all_none
    intro j hj
    rw [usizeSub1_of_pos hw h2]
    omega

/-- Witness for `C8_ma_edge_cases` on the concrete five-bar series. -/
theorem C8_ma_edge_cases_witness :
    calculate_ma maTestBars 0 = List.replicate maTestBars.length none ∧
    calculate_ma maTestBars 7 = List.replicate maTestBars.length none ∧
    calculate_ma ([] : List KLineData) 7 = [] := by
  have h := C8_ma_edge_cases maTestBars 7
    (by norm_num [maTestBars, USIZE]) (by norm_num [USIZE])
  exact ⟨h.1, h.2.1 (by norm_num [maTestBars]), h.2.2⟩

theorem round_le_round_of_le {x y : ℚ} (h : x ≤ y) : round x ≤ round y := by
  rw [round_eq, round_eq]
  exact Int.floor_le_floor (by linarith)

/-- C9: for `min_price < max_price` and `viewport_height ≥ 1` the
price → row projection (spec §4.6, performed in the source by the shared
canvas bounds) maps `max_price` to row `0` and `min_price` to the last row
`viewport_height - 1`, and is monotone (higher prices map to smaller row
numbers); the row → price map of the grid/axis code (`rowPrice`, the same
formula at both its `ui.rs` occurrences) agrees at the extremes: row `0`
carries `max_price` and the last row carries `min_price`. -/
theorem C9_render_projector (minP maxP : ℚ) (h : Nat)
    (hlt : minP < maxP) (hh : 1 ≤ h) :
    projRow minP maxP h maxP = 0 ∧
    projRow minP maxP h minP = h - 1 ∧
    (∀ p q : ℚ, p ≤ q → projRow minP maxP h q ≤ projRow minP maxP h p) ∧
    rowPrice minP (maxP - minP) h 0 = maxP ∧
    (2 ≤ h → rowPrice minP (maxP - minP) h (h - 1) = minP) := by
  have hrange : maxP - minP ≠ 0 := by linarith
  have hnn : (0 : ℚ) ≤ (h : ℚ) - 1 := by
    have : (1 : ℚ) ≤ (h : ℚ) := by exact_mod_cast hh
    linarith
  refine ⟨?_, ?_, ?_, ?_, ?_⟩
  · rw [projRow]
    rw [sub_self, zero_div, zero_mul, round_zero]
    rw [min_eq_left (by omega)]
    rfl
  · rw [projRow]
    rw [div_self hrange, one_mul]
    have hcast : (h : ℚ) - 1 = (((h : ℤ) - 1 : ℤ) : ℚ) := by push_cast; ring
    rw [hcast, round_intCast, min_self]
    omega
  · intro p q hpq
    rw [projRow, projRow]
    have h1 : (maxP - q) / (maxP - minP) * ((h : ℚ) - 1) ≤
        (maxP - p) / (maxP - minP) * ((h : ℚ) - 1) := by
      apply mul_le_mul_of_nonneg_right _ hnn
      exact (div_le_div_right (by linarith)).mpr (by linarith)
    exact Int.toNat_le_toNat (min_le_min (round_le_round_of_le h1) (le_refl _))
  · rw [rowPrice]
    norm_num
  · intro h2
    rw [rowPrice]
    have hd : max (h - 1) 1 = h - 1 := by omega
    rw [hd]
    have hne : ((h - 1 : ℕ) : ℚ) ≠ 0 := Nat.cast_ne_zero.mpr (by omega)
    rw [div_self hne]
    ring

/-- Witness for `C9_render_projector` at `min = 0`, `max = 10`, height 5. -/
theorem C9_render_projector_witness :
    projRow 0 10 5 10 = 0 ∧ projRow 0 10 5 0 = 4 ∧ rowPrice 0 10 5 0 = 10 := by
  have h := C9_render_projector 0 10 5 (by norm_num) (by norm_num)
  refine ⟨h.1, h.2.1, ?_⟩
  have := h.2.2.2.1
  norm_num at this ⊢
  exact this

/-- C6 (amended): a pan-toward-history action (`scroll_kline_left`)
increases `kline_offset` by the fixed step 5 exactly when
`kline_offset + 10 < series_len` — a guard independent of the visible
count — and leaves it unchanged otherwise; a pan-toward-present action
(`scroll_kline_right`) decreases it by 5, flooring at 0. -/
theorem C6_pan_step (s : App) :
    ((App.scroll_kline_left s).kline_offset = s.kline_offset + 5 ↔
      s.kline_offset + 10 < s.kline_data.length) ∧
    (¬ s.kline_offset + 10 < s.kline_data.length →
      (App.scroll_kline_left s).kline_offset = s.kline_offset) ∧
    (App.scroll_kline_right s).kline_offset = s.kline_offset - 5 ∧
    ((App.scroll_kline_right s).kline_offset = 0 ∨
      (App.scroll_kline_right s).kline_offset + 5 = s.kline_offset) := by
  by_cases hl : s.kline_offset + 10 < s.kline_data.length <;>
    by_cases hr : 5 ≤ s.kline_offset <;>
      simp [App.scroll_kline_left, App.scroll_kline_right, hl, hr] <;> omega

/-- A state panned to offset 85 over a 100-bar series (60-column canvas,
`visible_count = 20`). -/
def panState : App :=
  ⟨false, ["sh600519"], some 0, 0, [none], List.replicate 100 goodBar,
    .daily, .normal, 85, none⟩

/-- A state panned to offset 95 over a 100-bar series (pan-left guard
fails). -/
def panEdgeState : App :=
  ⟨false, ["sh600519"], some 0, 0, [none], List.replicate 100 goodBar,
    .daily, .normal, 95, none⟩

/-- C6 counterexample: at `series_len = 100`, `visible_count = 20` (canvas
width 60) and `pan_offset = 85` the claim's guard
`pan_offset + visible_count + step < series_len` (`85 + 20 + 5 < 100`) is
false, so the claim demands an unchanged offset — but the code's guard is
`pan_offset + 10 < series_len` (`95 < 100`), and the offset moves to 90. -/
theorem C6_counterexample :
    (App.scroll_kline_left panState).kline_offset = 90 ∧
    ¬ (panState.kline_offset + visibleCount 60 panState.kline_data.length + 5 <
      panState.kline_data.length) ∧
    (App.scroll_kline_left panState).kline_offset ≠ panState.kline_offset := by
  have hlen : panState.kline_data.length = 100 := by
    simp [panState]
  refine ⟨?_, ?_, ?_⟩
  · simp [App.scroll_kline_left, panState]
  · rw [hlen]
    show ¬ (85 + visibleCount 60 100 + 5 < 100)
    decide
  · simp [App.scroll_kline_left, panState]

/-- Witness for `C6_pan_step` at concrete pan states. -/
theorem C6_pan_step_witness :
    (App.scroll_kline_left panEdgeState).kline_offset = panEdgeState.kline_offset ∧
    (App.scroll_kline_right panEdgeState).kline_offset = panEdgeState.kline_offset - 5 := by
  have h := C6_pan_step panEdgeState
  exact ⟨h.2.1 (by simp [panEdgeState]), h.2.2.1⟩

/-- The cursor, when Active, points inside the visible window of width
`vis`. -/
def cursorOk (s : App) (vis : Nat) : Prop :=
  ∀ p, s.kline_cursor = some p → p < vis


theorem refresh_quotes_fields (s : App) (fetch : String → Option StockQuote) :
    (s.refresh_quotes fetch).kline_cursor = s.kline_cursor ∧
    (s.refresh_quotes fetch).kline_data = s.kline_data ∧
    (s.refresh_quotes fetch).watchlist = s.watchlist ∧
    (s.refresh_quotes fetch).active_index = s.active_index ∧
    (s.refresh_quotes fetch).kline_offset = s.kline_offset := by
  rw [App.refresh_quotes]
  split <;> exact ⟨rfl, rfl, rfl, rfl, rfl⟩

theorem refresh_kline_cursor_some (s : App) (d : List KLineData)
    (h : s.active_index < s.watchlist.length) :
    (s.refresh_kline (some d)).kline_cursor = none := by
  rw [App.refresh_kline, List.get?_eq_get h]

theorem refresh_kline_cursor_err (s : App) :
    (s.refresh_kline none).kline_cursor = s.kline_cursor := by
  rw [App.refresh_kline]
  rcases s.watchlist.get? s.active_index with _ | x <;> rfl

theorem cursor_left_ok (s : App) (mv vis : Nat)
    (hmv : min mv s.kline_data.length ≤ vis) (hvis : 1 ≤ vis)
    (hok : cursorOk s vis) : cursorOk (s.cursor_left mv) vis := by
  intro p hp
  rw [App.cursor_left] at hp
  rcases hcur : s.kline_cursor with _ | pos <;> rw [hcur] at hp
  · simp only at hp
    split_ifs at hp with hd
    · simp only at hp
      have := Option.some.inj hp
      omega
    · rw [hcur] at hp
      exact absurd hp (by simp)
  · simp only at hp
    have hbound := hok pos hcur
    split_ifs at hp with h0
    · simp only at hp
      have := Option.some.inj hp
      omega
    · rw [hcur] at hp
      have := Option.some.inj hp
      omega

theorem cursor_right_ok (s : App) (mv vis : Nat)
    (hmv : min mv s.kline_data.length ≤ vis) (hvis : 1 ≤ vis)
    (hok : cursorOk s vis) : cursorOk (s.cursor_right mv) vis := by
  intro p hp
  rw [App.cursor_right] at hp
  rcases hcur : s.kline_cursor with _ | pos <;> rw [hcur] at hp
  · simp only at hp
    split_ifs at hp with hd
    · simp only at hp
      have := Option.some.inj hp
      omega
    · rw [hcur] at hp
      exact absurd hp (by simp)
  · simp only at hp
    have hbound := hok pos hcur
    split_ifs at hp with h0
    · simp only at hp
      have := Option.some.inj hp
      omega
    · rw [hcur] at hp
      have := Option.some.inj hp
      omega

/-- C4 (amended): pan (PageUp/PageDown), explicit cancel (Esc), a
*successful* data refresh, a timeframe switch and a symbol switch (each
with the active symbol present) all force the cursor back to Inactive; a
*failed* refetch clears the series but leaves the cursor state untouched,
and a terminal resize leaves the whole state untouched (the source's
`Resize` arm is empty); when at least one candle is visible, the
cursor-movement actions keep an in-range cursor inside
`[0, visible_count)` for the width they were issued with.  (The original
claim fails on failed refetch and on resize — see the counterexample.) -/
theorem C4_cursor_discipline (s : App) (tw w h : Nat)
    (fetch : String → Option StockQuote) (tf : TimeFrame) (d : List KLineData) :
    (step .key_pageup s).kline_cursor = none ∧
    (step .key_pagedown s).kline_cursor = none ∧
    (s.kline_cursor.isSome → (step .key_esc s).kline_cursor = none) ∧
    (s.active_index < s.watchlist.length →
      (step (.key_r fetch (some d)) s).kline_cursor = none) ∧
    (s.active_index < s.watchlist.length → tf ≠ s.timeframe →
      (step (.key_tf tf (some d)) s).kline_cursor = none) ∧
    (s.highlighted_index ≠ s.active_index → s.highlighted_index < s.watchlist.length →
      (step (.key_enter (some d)) s).kline_cursor = none) ∧
    (step (.key_r fetch none) s).kline_cursor = s.kline_cursor ∧
    step (.resize w h) s = s ∧
    (1 ≤ s.visible_kline_count tw → cursorOk s (s.visible_kline_count tw) →
      cursorOk (step (.key_left tw) s) (s.visible_kline_count tw) ∧
      cursorOk (step (.key_right tw) s) (s.visible_kline_count tw)) := by
  obtain ⟨hq1, hq2, hq3, hq4, hq5⟩ := refresh_quotes_fields s fetch
  refine ⟨?_, ?_, ?_, ?_, ?_, ?_, ?_, rfl, ?_⟩
  · rw [step, App.scroll_kline_left]
  · rw [step, App.scroll_kline_right]
  · intro hcur
    rw [step, if_pos hcur]
  · intro hact
    rw [step, App.refresh_all]
    exact refresh_kline_cursor_some _ d (by rw [hq3, hq4]; exact hact)
  · intro hact htf
    rw [step, App.set_timeframe, if_pos (Ne.symm htf)]
    exact refresh_kline_cursor_some _ d hact
  · intro hne hlt
    rw [step, App.on_enter]
    simp only [if_pos hne]
    exact refresh_kline_cursor_some _ d hlt
  · rw [step, App.refresh_all, refresh_kline_cursor_err]
    exact hq1
  · intro hvis hok
    have hmv : min (s.visible_kline_count tw) s.kline_data.length ≤
        s.visible_kline_count tw := min_le_left _ _
    exact ⟨cursor_left_ok s _ _ hmv hvis hok, cursor_right_ok s _ _ hmv hvis hok⟩

/-- A state with an active cursor at position 3 over a 10-bar series. -/
def stuckState : App :=
  ⟨false, ["sh600519"], some 0, 0, [none], List.replicate 10 goodBar,
    .daily, .normal, 0, some 3⟩

/-- The state `stuckState` with the cursor inactive. -/
def idleState : App := { stuckState with kline_cursor := none }

/-- C4 counterexample: (1) a data refresh whose refetch *fails* clears the
series but leaves the cursor Active at 3 instead of forcing Inactive;
(2) a terminal resize also leaves it Active at 3; (3) with a 5-column
terminal (`visible_count = 0`) a first cursor move still activates the
cursor at position 0, which is not in `[0, visible_count) = [0, 0)`.
Each falsifies a part of the claim as stated. -/
theorem C4_counterexample :
    (step (.key_r (fun _ => none) none) stuckState).kline_cursor = some 3 ∧
    (step (.resize 40 12) stuckState).kline_cursor = some 3 ∧
    (step (.key_left 5) idleState).kline_cursor = some 0 ∧
    App.visible_kline_count (step (.key_left 5) idleState) 5 = 0 := by
  refine ⟨?_, rfl, ?_, ?_⟩
  · rw [step, App.refresh_all, refresh_kline_cursor_err]
    exact (refresh_quotes_fields stuckState _).1
  · rw [step, App.cursor_left]
    norm_num [idleState, stuckState, App.visible_kline_count, candle_width]
  · rw [step, App.cursor_left]
    norm_num [idleState, stuckState, App.visible_kline_count, candle_width]

/-- Witness for `C4_cursor_discipline` at a concrete state and width. -/
theorem C4_cursor_discipline_witness :
    (step .key_pageup idleState).kline_cursor = none ∧
    (step (.key_r (fun _ => none) none) idleState).kline_cursor =
      idleState.kline_cursor ∧
    cursorOk (step (.key_left 60) idleState) (idleState.visible_kline_count 60) := by
  have h := C4_cursor_discipline idleState 60 80 24 (fun _ => none) .min5
    (List.replicate 10 goodBar)
  refine ⟨h.1, h.2.2.2.2.2.2.1, ?_⟩
  refine (h.2.2.2.2.2.2.2.2 ?_ ?_).1
  · norm_num [idleState, stuckState, App.visible_kline_count, candle_width]
  · intro p hp
    simp [idleState, stuckState] at hp

theorem eraseIdx_length_eq {α : Type _} :
    ∀ (l : List α) (i : Nat),
    (l.eraseIdx i).length = if i < l.length then l.length - 1 else l.length := by
  intro l
  induction l with
  | nil => intro i; simp [List.eraseIdx]
  | cons a as ih =>
    intro i
    rcases i with _ | i
    · simp [List.eraseIdx]
    · simp only [List.eraseIdx, List.length_cons, ih]
      by_cases h : i < as.length <;> simp [h] <;> omega

/-- The one-quote-slot-per-watched-symbol invariant. -/
def quotesSync (s : App) : Prop := s.quotes.length = s.watchlist.length

theorem quotesSync_refresh_quotes (s : App) (fetch : String → Option StockQuote) :
    quotesSync (s.refresh_quotes fetch) := by
  rw [App.refresh_quotes]
  split
  · rename_i h
    simp [quotesSync, h]
  · simp [quotesSync]

theorem quotesSync_refresh_kline (s : App) (res : Option (List KLineData))
    (h : quotesSync s) : quotesSync (s.refresh_kline res) := by
  rw [App.refresh_kline.eq_def]
  split
  · split <;> exact h
  · exact h


theorem quotesSync_step (e : AppEvent) (s : App) (h : quotesSync s) :
    quotesSync (step e s) := by
  rcases e with _ | _ | _ | res | _ | _ | tw | tw | _ | _ | ⟨input, fetch⟩ | res |
    ⟨fetch, res⟩ | ⟨tf, res⟩ | fetch | ⟨w, hh⟩
  · exact h
  · rw [step]
    split
    · exact h
    · split
      · exact h
      · exact h
  · exact h
  · rw [step, App.on_enter]
    split
    · exact quotesSync_refresh_kline _ res h
    · exact h
  · rw [step]
    split
    · exact h
    · exact h
  · rw [step]
    split
    · exact h
    · exact h
  · rw [step, App.cursor_left.eq_def]
    split
    · split
      · exact h
      · exact h
    · split
      · exact h
      · exact h
  · rw [step, App.cursor_right.eq_def]
    split
    · dsimp only
      split
      · exact h
      · exact h
    · split
      · exact h
      · exact h
  · rw [step, App.scroll_kline_left]
    split
    · exact h
    · exact h
  · rw [step, App.scroll_kline_right]
    split
    · exact h
    · exact h
  · rw [quotesSync] at h
    rw [step, App.confirm_add_stock]
    by_cases h1 : input.trim.toLower = ""
    · rw [if_pos h1]
      exact h
    · rw [if_neg h1]
      generalize usToGb input.trim.toLower = sym
      by_cases h2 : ¬ (sym.startsWith "sh" ∨ sym.startsWith "sz" ∨ sym.startsWith "bj" ∨
          sym.startsWith "hk" ∨ sym.startsWith "gb_")
      · rw [if_pos h2]
        exact h
      · rw [if_neg h2]
        by_cases h3 : sym ∈ s.watchlist
        · rw [if_pos h3]
          exact h
        · rw [if_neg h3]
          rcases fetch with _ | q
          · simp only [quotesSync, List.length_append, List.length_cons, List.length_nil]
            omega
          · simp only [quotesSync, List.length_set, List.length_append, List.length_cons,
              List.length_nil]
            omega
  · rw [step]
    split
    · rw [App.delete_selected]
      split
      · exact h
      · apply quotesSync_refresh_kline
        rw [quotesSync] at h
        split
        · simp only [quotesSync, eraseIdx_length_eq]
          split
          · split
            · omega
            · omega
          · split
            · omega
            · omega
        · simp only [quotesSync, eraseIdx_length_eq]
          split
          · split
            · omega
            · omega
          · split
            · omega
            · omega
    · exact h
  · rw [step, App.refresh_all]
    exact quotesSync_refresh_kline _ res (quotesSync_refresh_quotes s fetch)
  · rw [step, App.set_timeframe]
    split
    · exact quotesSync_refresh_kline _ res h
    · exact h
  · exact quotesSync_refresh_quotes s fetch
  · exact h

/-- C10: in every reachable application state the quotes vector has exactly
one slot per watched symbol: `quotes.length = watchlist.length`
(initialisation creates one `None` per symbol, a refresh rebuilds one entry
per symbol, adding pushes to both lists, deleting removes from both). -/
theorem C10_quotes_watchlist_sync (s : App) (h : Reachable s) : quotesSync s := by
  induction h with
  | init wl fetch res =>
    exact quotesSync_refresh_kline _ res (quotesSync_refresh_quotes _ fetch)
  | step e s _ ih => exact quotesSync_step e s ih

/-- Witness for `C10_quotes_watchlist_sync` at a concrete start state. -/
theorem C10_quotes_watchlist_sync_witness :
    quotesSync (App.new ["sh600519", "sz000858"] (fun _ => none) none) :=
  C10_quotes_watchlist_sync _ (Reachable.init ["sh600519", "sz000858"] (fun _ => none) none)

/-- Ten bars with distinct closes `0, 1, …, 9`. -/
def bars10 : List KLineData := (List.range 10).map fun i => ⟨"", 0, 0, 0, (i : ℚ), 0⟩

/-- A fullscreen-chart state on a 26-column terminal: cursor Active at 0,
no pan, 10 bars. -/
def mismatchState : App :=
  ⟨false, ["sh600519"], some 0, 0, [none], bars10, .daily, .fullscreenChart, 0, some 0⟩

/-- C5: evaluation at the failing input.  On a 26-column terminal,
`cursor_kline` computes its window from `inner_width = 26 - 2 = 24`
(`visible_count = 8`, `start = 2`) and resolves cursor position 0 to the
bar with close 2 — while the chart itself draws the window starting at
`draw_window_start = 6` (`chart_width = 26 - 12 = 14`, `visible_count = 4`)
and highlights the bar with close 6.  The claim (cursor resolves in the
same window used for display) fails: the returned bar differs from the one
at `draw_start + pos`. -/
theorem C5_cursor_window_mismatch :
    App.cursor_kline mismatchState 26 = bars10.get? 2 ∧
    draw_window_start 10 0 26 = 6 ∧
    mismatchState.kline_data.length = 10 ∧
    mismatchState.kline_offset = 0 ∧
    App.cursor_kline mismatchState 26 ≠
      mismatchState.kline_data.get? (draw_window_start 10 0 26 + 0) := by
  refine ⟨rfl, rfl, rfl, rfl, ?_⟩
  decide
